import Mathlib

/-!
# docker-machine-sakuracloud: disk provenance, copy monitors, packet-filter attach

A shallow embedding of

* `DiskAPI.CanEditDisk`, `DiskAPI.State`, `DiskAPI.SleepWhileCopying` and
  `DiskAPI.AsyncSleepWhileCopying`
  (`vendor/github.com/sacloud/libsacloud/api/disk.go`), and
* `APIClient.connectPacketFilter` (`lib/api/server.go`),

followed by the properties established for them.

The remote API is the environment.  A read is an oracle indexed by the
number of reads already performed, so its answers may change from one call
to the next; every call a function makes is recorded in its result.
-/

namespace Sakura

/-! ## Errors and resources -/

/-- An error value handed back by the API client (`error` of a `Read`,
`Find` or `ConnectToPacketFilter` call). -/
abbrev GwError := String

/-- Modelled from the spec: `sacloud.Disk.IsAvailable` and `IsFailed` are not
in the sources; section 3 gives a resource one of four states, of which
`Available` and `Failed` are terminal. -/
inductive ResourceState
  | Pending
  | InProgress
  | Available
  | Failed
  deriving DecidableEq, Repr

/-- The `SourceDisk` / `SourceArchive` field of a disk: the referenced id and
its `Availability` string. -/
structure SourceRef where
  ID : Int
  Availability : String
  deriving DecidableEq, Repr

/-- The fields of `sacloud.Disk` that the embedded functions inspect.
`BundleInfo`, `SourceDisk` and `SourceArchive` are pointers in the source
(`none` is `nil`). -/
structure Disk where
  ID : Int
  BundleInfo : Option Unit
  SourceDisk : Option SourceRef
  SourceArchive : Option SourceRef
  Tags : List String
  State : ResourceState
  deriving DecidableEq, Repr

/-- The errors the embedded functions return: an API error passed through
unchanged, or one of the four errors built with `fmt.Errorf`. -/
inductive Error
  | gateway (e : GwError)
  | timeoutWait
  | timeoutAsync (id : Int)
  | failedCreate (d : Disk)
  | pfNotFound (token : String)
  deriving DecidableEq, Repr

/-- Modelled from the spec: `sacloud.Disk.HasTag` is not in the sources;
section 3 gives a resource a set of free-text tags and section 4.2 tests
whether a tag of the resource is in the allow set. -/
def Disk.HasTag (d : Disk) (t : String) : Bool := decide (t ∈ d.Tags)

/-- Modelled from the spec: `sacloud.Disk.IsAvailable` is not in the sources;
the resource is in state `Available`. -/
def Disk.IsAvailable (d : Disk) : Bool := decide (d.State = ResourceState.Available)

/-- Modelled from the spec: `sacloud.Disk.IsFailed` is not in the sources;
the resource is in state `Failed`. -/
def Disk.IsFailed (d : Disk) : Bool := decide (d.State = ResourceState.Failed)

/-! ## CanEditDisk -/

/-- The tags of `allowDiskEditTags`. -/
def allowDiskEditTags : List String := ["os-unix", "os-linux"]

/-- A remote call made while resolving editability: a `DiskAPI.Read`, or the
hand-over to `ArchiveAPI.CanEditDisk`. -/
inductive EditCall
  | diskRead (id : Int)
  | archiveCanEditDisk (id : Int)
  deriving DecidableEq, Repr

/-- The environment of `CanEditDisk`.  `diskRead t id` is the answer of
`api.Read(id)` when `t` reads were made before it: an error, or a disk pointer
that may be `nil`.  `archiveCanEditDisk t id` is what
`api.client.Archive.CanEditDisk(id)` returns, `none` when it does not return;
that method is not part of the sources and is left arbitrary. -/
structure EditGateway where
  diskRead : Nat → Int → Except GwError (Option Disk)
  archiveCanEditDisk : Nat → Int → Option (Bool × Option Error)

/-- The pair `(bool, error)` returned by `CanEditDisk`, with the calls made
on the way, in order. -/
structure EditResult where
  verdict : Bool
  err : Option Error
  calls : List EditCall
  deriving DecidableEq, Repr

/-- The loop `for _, t := range allowDiskEditTags { if disk.HasTag(t) ... }`:
some tag of the allow list is on the disk. -/
def hasAllowTag (d : Disk) : Bool := allowDiskEditTags.any (fun t => d.HasTag t)

/-- The test `ref != nil && ref.Availability != "discontinued"` of lines
265 and 268. -/
def activeRef (r : Option SourceRef) : Option SourceRef :=
  match r with
  | some s => if s.Availability != "discontinued" then some s else none
  | none => none

/-- `DiskAPI.CanEditDisk`, at most `fuel` nested invocations deep, entered
after `t` reads.  `none` means the fuel ran out (or the archive side did not
return). -/
def CanEditDisk (gw : EditGateway) : Nat → Nat → Int → Option EditResult
  | 0, _, _ => none
  | fuel + 1, t, id =>
    match gw.diskRead t id with
    | .error e => some ⟨false, some (Error.gateway e), [EditCall.diskRead id]⟩
    | .ok none => some ⟨false, none, [EditCall.diskRead id]⟩
    | .ok (some disk) =>
      if disk.BundleInfo.isSome then
        some ⟨false, none, [EditCall.diskRead id]⟩
      else if disk.SourceArchive.isNone && disk.SourceDisk.isNone then
        some ⟨false, none, [EditCall.diskRead id]⟩
      else if hasAllowTag disk then
        some ⟨true, none, [EditCall.diskRead id]⟩
      else
        match activeRef disk.SourceDisk with
        | some src =>
          match CanEditDisk gw fuel (t + 1) src.ID with
          | some r => some ⟨r.verdict, r.err, EditCall.diskRead id :: r.calls⟩
          | none => none
        | none =>
          match activeRef disk.SourceArchive with
          | some src =>
            match gw.archiveCanEditDisk (t + 1) src.ID with
            | some (v, e) =>
              some ⟨v, e, [EditCall.diskRead id, EditCall.archiveCanEditDisk src.ID]⟩
            | none => none
          | none => some ⟨false, none, [EditCall.diskRead id]⟩

/-! ### Provenance chains -/

/-- The disk is blank-sourced: it has neither a source archive nor a source
disk. -/
def isBlank (d : Disk) : Bool := d.SourceArchive.isNone && d.SourceDisk.isNone

/-- The allow set of the spec on a tag list: the disk is tagged `os-unix` or
`os-linux`. -/
def carriesAllowTag (d : Disk) : Bool :=
  decide ("os-unix" ∈ d.Tags) || decide ("os-linux" ∈ d.Tags)

/-- A source reference that leads nowhere: it is absent, or what it names is
marked `discontinued`. -/
def deadRef : Option SourceRef → Bool
  | none => true
  | some r => r.Availability == "discontinued"

/-- A resource at which a provenance chain ends: it is bundled, blank-sourced
or allow-tagged, or every source reference it has is discontinued. -/
def endsChain (d : Disk) : Bool :=
  d.BundleInfo.isSome || isBlank d || carriesAllowTag d ||
    (deadRef d.SourceDisk && deadRef d.SourceArchive)

/-- The preferred source reference: the source disk when
present, otherwise the source archive. -/
def preferredRef (d : Disk) : Option SourceRef :=
  match d.SourceDisk with
  | some r => some r
  | none => d.SourceArchive

/-- The source-disk reference of `d` is active and names `next`. -/
def followsSourceDisk (d : Disk) (next : Int) : Bool :=
  match d.SourceDisk with
  | some r => r.Availability != "discontinued" && r.ID == next
  | none => false

/-- The list `(id₀, d₀), …, (id_N, d_N)` is a provenance chain of the gateway
entered after `t` reads: the read of each `idᵢ` (the `t + i`-th read) yields
`dᵢ`, every `dᵢ` before the last points to `idᵢ₊₁` through an active
source-disk reference, and the last resource ends the chain. -/
def chainAt (gw : EditGateway) : Nat → List (Int × Disk) → Prop
  | _, [] => False
  | t, [(id, d)] => gw.diskRead t id = .ok (some d) ∧ endsChain d = true
  | t, (id, d) :: (id', d') :: rest =>
    gw.diskRead t id = .ok (some d) ∧ followsSourceDisk d id' = true ∧
      chainAt gw (t + 1) ((id', d') :: rest)

/-- The verdict the bundle, blank or tag rule gives for one resource, in the
order of section 4.2 of the spec (steps 2, 3 and 4); `none` when no rule
applies. -/
def ruleVerdict (d : Disk) : Option Bool :=
  if d.BundleInfo.isSome then some false
  else if isBlank d then some false
  else if carriesAllowTag d then some true
  else none

/-- The result the spec gives for a chain: the verdict of the first resource
to which the bundle, blank or tag rule applies, `false` when the chain ends
without one. -/
def chainVerdict : List (Int × Disk) → Bool
  | [] => false
  | (_, d) :: rest =>
    match ruleVerdict d with
    | some v => v
    | none => chainVerdict rest

/-- The reads the spec allows on a chain: the resources in order, up to and
including the first one to which the bundle, blank or tag rule applies. -/
def chainReads : List (Int × Disk) → List EditCall
  | [] => []
  | (id, d) :: rest =>
    match ruleVerdict d with
    | some _ => [EditCall.diskRead id]
    | none => EditCall.diskRead id :: chainReads rest

/-! ## State and SleepWhileCopying -/

/-- Wrap-around of `int64`, the type under `time.Duration`. -/
def int64Wrap (x : Int) : Int :=
  (x + 9223372036854775808) % 18446744073709551616 - 9223372036854775808

/-- The constant `interval := 5 * time.Second`, in nanoseconds. -/
def interval : Int := 5000000000

/-- `DiskAPI.State` at the `k`-th poll.  `read k` is the answer of
`api.Read(diskID)` there; a successful read carries the disk, on which
`IsAvailable` is called without a nil check. -/
def State (read : Nat → Except GwError Disk) (k : Nat) : Bool × Option Error :=
  match read k with
  | .error e => (false, some (Error.gateway e))
  | .ok disk => (disk.IsAvailable, none)

/-- What `SleepWhileCopying` returns (`err = none` is `nil`) and the number of
`time.Sleep(interval)` calls completed before it returned. -/
structure WaitResult where
  err : Option Error
  sleeps : Nat
  deriving DecidableEq, Repr

/-- The `for` loop of `SleepWhileCopying`, entered for the `k`-th time with
the accumulator `current`; at most `fuel` iterations. -/
def sleepLoop (read : Nat → Except GwError Disk) (timeout : Int) :
    Nat → Nat → Int → Option WaitResult
  | 0, _, _ => none
  | fuel + 1, k, current =>
    match State read k with
    | (_, some e) => some ⟨some e, k⟩
    | (true, none) => some ⟨none, k⟩
    | (false, none) =>
      if timeout > 0 ∧ int64Wrap (current + interval) > timeout then
        some ⟨some Error.timeoutWait, k + 1⟩
      else
        sleepLoop read timeout fuel (k + 1) (int64Wrap (current + interval))

/-- `DiskAPI.SleepWhileCopying` with `timeout` in nanoseconds; `none` means
it is still polling after `fuel` iterations. -/
def SleepWhileCopying (read : Nat → Except GwError Disk) (timeout : Int) (fuel : Nat) :
    Option WaitResult :=
  sleepLoop read timeout fuel 0 0

/-! ## AsyncSleepWhileCopying -/

/-- Which case of the `select` is taken in one iteration: the 5-second timer
or the `time.After(timeout)` timer. -/
inductive Fired
  | tick
  | deadline
  deriving DecidableEq, Repr

/-- A value delivered on one of the three channels. -/
inductive Event
  | progress (d : Disk)
  | complete (d : Disk)
  | error (e : Error)
  deriving DecidableEq, Repr

/-- Where the background task is: still looping, stuck in a send nobody
receives, or returned. -/
inductive TaskStatus
  | running
  | blocked
  | returned
  deriving DecidableEq, Repr

/-- The events delivered so far, in order, and the status of the task. -/
structure TaskTrace where
  events : List Event
  status : TaskStatus
  deriving DecidableEq, Repr

/-- A send on an unbuffered channel: `recv j` tells whether the send made
after `j` delivered events is ever received. -/
def trySend (recv : Nat → Bool) (sent : List Event) (ev : Event) : Option (List Event) :=
  if recv sent.length then some (sent ++ [ev]) else none

/-- The `for { select { ... } }` loop of the goroutine, entered for the
`i`-th time with `sent` already delivered.  `fired i` is the case taken,
`read i` the answer of `api.Read(id)` in that iteration. -/
def asyncLoop (id : Int) (fired : Nat → Fired) (read : Nat → Except GwError Disk)
    (recv : Nat → Bool) : Nat → Nat → List Event → TaskTrace
  | 0, _, sent => ⟨sent, TaskStatus.running⟩
  | fuel + 1, i, sent =>
    match fired i with
    | Fired.tick =>
      match read i with
      | .error e =>
        match trySend recv sent (Event.error (Error.gateway e)) with
        | some s => ⟨s, TaskStatus.returned⟩
        | none => ⟨sent, TaskStatus.blocked⟩
      | .ok disk =>
        match trySend recv sent (Event.progress disk) with
        | none => ⟨sent, TaskStatus.blocked⟩
        | some s1 =>
          if disk.IsAvailable then
            match trySend recv s1 (Event.complete disk) with
            | some s2 => ⟨s2, TaskStatus.returned⟩
            | none => ⟨s1, TaskStatus.blocked⟩
          else if disk.IsFailed then
            match trySend recv s1 (Event.error (Error.failedCreate disk)) with
            | some s2 => ⟨s2, TaskStatus.returned⟩
            | none => ⟨s1, TaskStatus.blocked⟩
          else asyncLoop id fired read recv fuel (i + 1) s1
    | Fired.deadline =>
      match trySend recv sent (Event.error (Error.timeoutAsync id)) with
      | some s => ⟨s, TaskStatus.returned⟩
      | none => ⟨sent, TaskStatus.blocked⟩

/-- The goroutine started by `AsyncSleepWhileCopying`, run for at most `fuel`
iterations under an arbitrary sequence of timer outcomes. -/
def asyncTask (id : Int) (fired : Nat → Fired) (read : Nat → Except GwError Disk)
    (recv : Nat → Bool) (fuel : Nat) : TaskTrace :=
  asyncLoop id fired read recv fuel 0 []

/-- The race of one iteration between `time.After(5 * time.Second)` and
`time.After(timeout)`, both armed when the `select` is entered: the shorter
one fires first, and `tie` decides when they are equal. -/
def selectFired (timeout : Int) (tie : Fired) : Fired :=
  if interval < timeout then Fired.tick
  else if timeout < interval then Fired.deadline
  else tie

/-- `AsyncSleepWhileCopying` with `timeout` in nanoseconds: the goroutine with
the timers of the source. -/
def AsyncSleepWhileCopying (id : Int) (timeout : Int) (tie : Nat → Fired)
    (read : Nat → Except GwError Disk) (recv : Nat → Bool) (fuel : Nat) : TaskTrace :=
  asyncTask id (fun i => selectFired timeout (tie i)) read recv fuel

/-- An event on the completion or the error channel. -/
def Event.isTerminal : Event → Bool
  | Event.progress _ => false
  | Event.complete _ => true
  | Event.error _ => true

/-! ## connectPacketFilter -/

/-- The field of `sacloud.PacketFilter` that is read. -/
structure PacketFilter where
  ID : Int
  deriving DecidableEq, Repr

/-- The fields of the `Find` response that are read. -/
structure SearchPacketFilterResponse where
  Count : Int
  PacketFilters : List PacketFilter
  deriving DecidableEq, Repr

/-- The field of `sacloud.Interface` that is read. -/
structure Interface where
  ID : Int
  deriving DecidableEq, Repr

/-- A call made through the API client. -/
inductive PFCall
  | read (id : Int)
  | find (nameLike : String) (limit : Nat)
  | connect (nicID : Int) (packetFilterID : Int)
  deriving DecidableEq, Repr

/-- How `connectPacketFilter` ends: with `nil`, with an error, or in a
run-time panic (nil dereference, index out of range). -/
inductive Ret
  | ok
  | err (e : Error)
  | crash
  deriving DecidableEq, Repr

/-- The collaborators of `connectPacketFilter`.  `ToSakuraID` is not part of
the sources and is left arbitrary; `Read` and `Find` return an error or a
pointer that may be `nil`. -/
structure PFClient where
  ToSakuraID : String → Int × Bool
  Read : Int → Except GwError (Option PacketFilter)
  Find : String → Nat → Except GwError (Option SearchPacketFilterResponse)
  ConnectToPacketFilter : Int → Int → Except GwError Bool

/-- The return value of `connectPacketFilter` and the calls it made. -/
structure PFOutcome where
  ret : Ret
  calls : List PFCall
  deriving DecidableEq, Repr

/-- The match of the pattern `^[0-9]+$`: the token is non-empty and all its
characters are digits `0` to `9`. -/
def matchDigits (s : String) : Bool := !s.data.isEmpty && s.data.all Char.isDigit

/-- Lines 163 to 167: the error of the attach call is returned as it is,
`nil` when there is none. -/
def attachRet (a : Except GwError Bool) : Ret :=
  match a with
  | .error e => Ret.err (Error.gateway e)
  | .ok _ => Ret.ok

/-- Lines 157 to 167: nothing to do for id 0, otherwise the attach call. -/
def connectStep (c : PFClient) (nic : Interface) (id : Int) (calls : List PFCall) :
    PFOutcome :=
  if id = 0 then ⟨Ret.ok, calls⟩
  else ⟨attachRet (c.ConnectToPacketFilter nic.ID id), calls ++ [PFCall.connect nic.ID id]⟩

/-- Lines 141 to 155, then the attach: the name search when `id` is still 0. -/
def searchStep (c : PFClient) (nic : Interface) (idOrNameFilter : String) (id : Int)
    (calls : List PFCall) : PFOutcome :=
  if id = 0 then
    match c.Find idOrNameFilter 1 with
    | .error e => ⟨Ret.err (Error.gateway e), calls ++ [PFCall.find idOrNameFilter 1]⟩
    | .ok none => ⟨Ret.crash, calls ++ [PFCall.find idOrNameFilter 1]⟩
    | .ok (some res) =>
      if res.Count > 0 then
        match res.PacketFilters with
        | [] => ⟨Ret.crash, calls ++ [PFCall.find idOrNameFilter 1]⟩
        | p :: _ => connectStep c nic p.ID (calls ++ [PFCall.find idOrNameFilter 1])
      else
        ⟨Ret.err (Error.pfNotFound idOrNameFilter), calls ++ [PFCall.find idOrNameFilter 1]⟩
  else connectStep c nic id calls

/-- `APIClient.connectPacketFilter`. -/
def connectPacketFilter (c : PFClient) (nic : Interface) (idOrNameFilter : String) :
    PFOutcome :=
  if idOrNameFilter = "" then ⟨Ret.ok, []⟩
  else if matchDigits idOrNameFilter then
    match c.Read (c.ToSakuraID idOrNameFilter).1 with
    | .error e => ⟨Ret.err (Error.gateway e), [PFCall.read (c.ToSakuraID idOrNameFilter).1]⟩
    | .ok none => ⟨Ret.crash, [PFCall.read (c.ToSakuraID idOrNameFilter).1]⟩
    | .ok (some p) =>
      searchStep c nic idOrNameFilter p.ID [PFCall.read (c.ToSakuraID idOrNameFilter).1]
  else searchStep c nic idOrNameFilter 0 []

/-! ## Concrete inputs -/

/-- A gateway that answers every disk read with `d` and whose archive side
answers `a`. -/
def constGateway (d : Disk) (a : Bool × Option Error) : EditGateway :=
  ⟨fun _ _ => .ok (some d), fun _ _ => some a⟩

/-- A bundled disk that carries the tag `os-linux` and has a source archive. -/
def bundledTaggedDisk : Disk :=
  ⟨1, some (), none, some ⟨7, "available"⟩, ["os-linux"], ResourceState.Available⟩

/-- A blank-sourced disk that carries the tag `os-unix`. -/
def blankTaggedDisk : Disk :=
  ⟨1, none, none, none, ["os-unix"], ResourceState.Available⟩

/-- A tagged disk copied from a disk that is now discontinued. -/
def taggedDisk : Disk :=
  ⟨1, none, some ⟨2, "discontinued"⟩, none, ["db", "os-linux"], ResourceState.Available⟩

/-- An untagged disk whose source disk is discontinued and whose source
archive is not. -/
def twoSourceDisk : Disk :=
  ⟨1, none, some ⟨2, "discontinued"⟩, some ⟨7, "available"⟩, [], ResourceState.Available⟩

/-- An untagged disk whose source disk and source archive are both
discontinued. -/
def deadSourceDisk : Disk :=
  ⟨1, none, some ⟨2, "discontinued"⟩, some ⟨7, "discontinued"⟩, [], ResourceState.Available⟩

/-- An untagged disk copied from disk `next`, which is still offered. -/
def copyOf (id next : Int) : Disk :=
  ⟨id, none, some ⟨next, "available"⟩, none, [], ResourceState.Available⟩

/-- Three disks: 1 copied from 2, 2 copied from 3, 3 tagged `os-linux` and
copied from an archive. -/
def chainGateway : EditGateway :=
  ⟨fun _ id =>
      if id = 1 then .ok (some (copyOf 1 2))
      else if id = 2 then .ok (some (copyOf 2 3))
      else if id = 3 then
        .ok (some ⟨3, none, none, some ⟨9, "available"⟩, ["os-linux"], ResourceState.Available⟩)
      else .error "not found",
    fun _ _ => none⟩

/-- Disk 2 of the two gateways below: untagged, with a discontinued source
disk and a source archive marked `avail`. -/
def halfDeadDisk (avail : String) : Disk :=
  ⟨2, none, some ⟨3, "discontinued"⟩, some ⟨7, avail⟩, [], ResourceState.Available⟩

/-- Two disks: 1 copied from 2, and 2 with a discontinued source disk and a
source archive marked `avail`; the archive side answers `true`. -/
def archiveEndGateway (avail : String) : EditGateway :=
  ⟨fun _ id =>
      if id = 1 then .ok (some (copyOf 1 2))
      else if id = 2 then .ok (some (halfDeadDisk avail))
      else .error "not found",
    fun _ _ => some (true, none)⟩

/-- A disk that is still being copied. -/
def pendingDisk : Disk := ⟨1, none, none, none, [], ResourceState.InProgress⟩

/-- A disk whose copy has finished. -/
def availableDisk : Disk := ⟨1, none, none, none, [], ResourceState.Available⟩

/-- Every read succeeds and finds the disk still being copied. -/
def pendingReads : Nat → Except GwError Disk := fun _ => .ok pendingDisk

/-- The first two reads find the disk being copied, the later ones find it
available. -/
def readyAfterTwo : Nat → Except GwError Disk :=
  fun k => if k < 2 then .ok pendingDisk else .ok availableDisk

/-- Every send is received. -/
def allReceived : Nat → Bool := fun _ => true

/-- A client whose direct read finds a filter carrying id 0 and whose name
search finds filter 77. -/
def zeroIdClient : PFClient :=
  ⟨fun _ => (42, true), fun _ => .ok (some ⟨0⟩), fun _ _ => .ok (some ⟨1, [⟨77⟩]⟩),
    fun _ _ => .ok true⟩

/-- A client whose name search reports one match, carrying id 0. -/
def zeroMatchClient : PFClient :=
  ⟨fun _ => (0, false), fun _ => .error "not found", fun _ _ => .ok (some ⟨1, [⟨0⟩]⟩),
    fun _ _ => .ok true⟩

/-- A client that knows filter 42, finds filter 77 by name and attaches
without error. -/
def goodClient : PFClient :=
  ⟨fun _ => (42, true), fun id => .ok (some ⟨id⟩), fun _ _ => .ok (some ⟨1, [⟨77⟩]⟩),
    fun _ _ => .ok true⟩


/-! ## Properties of CanEditDisk -/

theorem hasAllowTag_of_tag (d : Disk) (tag : String) (htag : tag ∈ allowDiskEditTags)
    (hhas : d.HasTag tag = true) : hasAllowTag d = true := by
  unfold hasAllowTag
  exact List.any_eq_true.mpr ⟨tag, htag, hhas⟩

/-- C2: a disk that is fetched successfully and has `BundleInfo` set is not
editable: `CanEditDisk` returns `(false, nil)` and its only call is the one
read of that disk, whatever the tags and the source references are. -/
theorem CanEditDisk_bundled (gw : EditGateway) (fuel t : Nat) (id : Int) (d : Disk)
    (hread : gw.diskRead t id = .ok (some d)) (hb : d.BundleInfo ≠ none) :
    CanEditDisk gw (fuel + 1) t id = some ⟨false, none, [EditCall.diskRead id]⟩ := by
  have hb' : d.BundleInfo.isSome = true := by
    cases h : d.BundleInfo with
    | none => exact absurd h hb
    | some _ => rfl
  simp [CanEditDisk, hread, hb']

theorem CanEditDisk_bundled_witness :
    CanEditDisk (constGateway bundledTaggedDisk (true, none)) 1 0 1
      = some ⟨false, none, [EditCall.diskRead 1]⟩ :=
  CanEditDisk_bundled (constGateway bundledTaggedDisk (true, none)) 0 0 1 bundledTaggedDisk
    rfl (by decide)

/-- C1, counterexample: a bundled disk and a blank-sourced disk each carry a
tag of the allow list, their fetch succeeds, and `CanEditDisk` returns
`false` for both. -/
theorem CanEditDisk_tag_not_sufficient :
    (bundledTaggedDisk.HasTag "os-linux" = true ∧
      (constGateway bundledTaggedDisk (true, none)).diskRead 0 1 = .ok (some bundledTaggedDisk) ∧
      CanEditDisk (constGateway bundledTaggedDisk (true, none)) 1 0 1
        = some ⟨false, none, [EditCall.diskRead 1]⟩) ∧
    (blankTaggedDisk.HasTag "os-unix" = true ∧
      (constGateway blankTaggedDisk (true, none)).diskRead 0 1 = .ok (some blankTaggedDisk) ∧
      CanEditDisk (constGateway blankTaggedDisk (true, none)) 1 0 1
        = some ⟨false, none, [EditCall.diskRead 1]⟩) := by
  refine ⟨⟨by decide, rfl, by decide⟩, ⟨by decide, rfl, by decide⟩⟩

/-- C1, amended: for a disk that is fetched successfully and carries a tag of
the allow list, `CanEditDisk` returns after the one read, without error, and
the tag decides only after the bundle and blank tests: the verdict is `false`
when `BundleInfo` is set, `false` when the disk has no `BundleInfo` and
neither a source disk nor a source archive, and `true` when it has no
`BundleInfo` and a source disk or a source archive, whatever the
availability of these sources. -/
theorem CanEditDisk_allow_tag (gw : EditGateway) (fuel t : Nat) (id : Int) (d : Disk)
    (hread : gw.diskRead t id = .ok (some d))
    (tag : String) (htag : tag ∈ allowDiskEditTags) (hhas : d.HasTag tag = true) :
    (d.BundleInfo ≠ none →
      CanEditDisk gw (fuel + 1) t id = some ⟨false, none, [EditCall.diskRead id]⟩) ∧
    (d.BundleInfo = none → d.SourceDisk = none → d.SourceArchive = none →
      CanEditDisk gw (fuel + 1) t id = some ⟨false, none, [EditCall.diskRead id]⟩) ∧
    (d.BundleInfo = none → d.SourceDisk ≠ none ∨ d.SourceArchive ≠ none →
      CanEditDisk gw (fuel + 1) t id = some ⟨true, none, [EditCall.diskRead id]⟩) := by
  have ht := hasAllowTag_of_tag d tag htag hhas
  refine ⟨?_, ?_, ?_⟩
  · intro hb
    have hb2 : d.BundleInfo.isSome = true := by
      cases h : d.BundleInfo with
      | none => exact absurd h hb
      | some _ => rfl
    simp [CanEditDisk, hread, hb2]
  · intro hb hsd hsa
    simp [CanEditDisk, hread, hb, hsd, hsa]
  · intro hb hsrc
    have hblank : (d.SourceArchive.isNone && d.SourceDisk.isNone) = false := by
      rcases hsrc with h | h
      · cases hs : d.SourceDisk with
        | none => exact absurd hs h
        | some _ => simp
      · cases hs : d.SourceArchive with
        | none => exact absurd hs h
        | some _ => simp
    simp [CanEditDisk, hread, hb, hblank, ht]

theorem CanEditDisk_allow_tag_witness :
    CanEditDisk (constGateway taggedDisk (false, none)) 1 0 1
      = some ⟨true, none, [EditCall.diskRead 1]⟩ :=
  (CanEditDisk_allow_tag (constGateway taggedDisk (false, none)) 0 0 1 taggedDisk
    rfl "os-linux" (by decide) (by decide)).2.2 rfl (Or.inl (by decide))

/-- C10, counterexample: the disk has no `BundleInfo` and no allow tag, its
source disk (the preferred reference) is discontinued, and yet `CanEditDisk`
does not stop with `false`: the source archive is not discontinued, so the
archive side is asked and its answer `true` is returned. -/
theorem CanEditDisk_discontinued_disk_active_archive :
    (constGateway twoSourceDisk (true, none)).diskRead 0 1 = .ok (some twoSourceDisk) ∧
    twoSourceDisk.BundleInfo = none ∧ hasAllowTag twoSourceDisk = false ∧
    preferredRef twoSourceDisk = some ⟨2, "discontinued"⟩ ∧
    CanEditDisk (constGateway twoSourceDisk (true, none)) 1 0 1
      = some ⟨true, none, [EditCall.diskRead 1, EditCall.archiveCanEditDisk 7]⟩ := by
  refine ⟨rfl, rfl, by decide, rfl, by decide⟩

/-- C10, amended: for a disk that is fetched successfully, has no
`BundleInfo` and no allow tag, and whose preferred source reference is
discontinued: when its source archive is absent or discontinued as well,
`CanEditDisk` returns `(false, nil)` after the one read; when the source
archive is present and not discontinued, `CanEditDisk` hands that archive to
the archive side and returns whatever it returns. -/
theorem CanEditDisk_discontinued (gw : EditGateway) (fuel t : Nat) (id : Int) (d : Disk)
    (r : SourceRef)
    (hread : gw.diskRead t id = .ok (some d)) (hb : d.BundleInfo = none)
    (htag : hasAllowTag d = false)
    (hpref : preferredRef d = some r) (hdisc : r.Availability = "discontinued") :
    (activeRef d.SourceArchive = none →
      CanEditDisk gw (fuel + 1) t id = some ⟨false, none, [EditCall.diskRead id]⟩) ∧
    (∀ a, activeRef d.SourceArchive = some a →
      CanEditDisk gw (fuel + 1) t id =
        (gw.archiveCanEditDisk (t + 1) a.ID).map
          (fun p => ⟨p.1, p.2, [EditCall.diskRead id, EditCall.archiveCanEditDisk a.ID]⟩)) := by
  have hsd : activeRef d.SourceDisk = none := by
    unfold preferredRef at hpref
    cases hs : d.SourceDisk with
    | none => rfl
    | some s =>
      rw [hs] at hpref
      have : s = r := by simpa using hpref
      subst this
      simp [activeRef, hdisc]
  have hblank : (d.SourceArchive.isNone && d.SourceDisk.isNone) = false := by
    unfold preferredRef at hpref
    cases hs : d.SourceDisk with
    | some s => simp
    | none =>
      rw [hs] at hpref
      simp only at hpref
      simp [hpref]
  constructor
  · intro ha
    simp [CanEditDisk, hread, hb, hblank, htag, hsd, ha]
  · intro a ha
    cases hv : gw.archiveCanEditDisk (t + 1) a.ID with
    | none => simp [CanEditDisk, hread, hb, hblank, htag, hsd, ha, hv]
    | some p =>
      obtain ⟨v, e⟩ := p
      simp [CanEditDisk, hread, hb, hblank, htag, hsd, ha, hv]

theorem CanEditDisk_discontinued_witness :
    CanEditDisk (constGateway deadSourceDisk (true, none)) 1 0 1
      = some ⟨false, none, [EditCall.diskRead 1]⟩ :=
  (CanEditDisk_discontinued (constGateway deadSourceDisk (true, none)) 0 0 1 deadSourceDisk
    ⟨2, "discontinued"⟩ rfl rfl (by decide) rfl rfl).1 (by decide)

theorem hasAllowTag_eq_carriesAllowTag (d : Disk) : hasAllowTag d = carriesAllowTag d := by
  simp [hasAllowTag, carriesAllowTag, allowDiskEditTags, Disk.HasTag]

theorem activeRef_of_deadRef (r : Option SourceRef) (h : deadRef r = true) :
    activeRef r = none := by
  cases r with
  | none => rfl
  | some s =>
    have hs : s.Availability = "discontinued" := by simpa [deadRef] using h
    simp [activeRef, hs]

theorem chain_cons_of_rule (id : Int) (d : Disk) (rest : List (Int × Disk)) (v : Bool)
    (h : ruleVerdict d = some v) :
    chainVerdict ((id, d) :: rest) = v ∧
      chainReads ((id, d) :: rest) = [EditCall.diskRead id] := by
  simp [chainVerdict, chainReads, h]

theorem chain_cons_of_no_rule (id : Int) (d : Disk) (rest : List (Int × Disk))
    (h : ruleVerdict d = none) :
    chainVerdict ((id, d) :: rest) = chainVerdict rest ∧
      chainReads ((id, d) :: rest) = EditCall.diskRead id :: chainReads rest := by
  simp [chainVerdict, chainReads, h]

theorem chainReads_length_le (chain : List (Int × Disk)) :
    (chainReads chain).length ≤ chain.length := by
  induction chain with
  | nil => simp [chainReads]
  | cons p rest ih =>
    obtain ⟨id, d⟩ := p
    cases h : ruleVerdict d with
    | none => simp [chainReads, h, ih]
    | some v => simp [chainReads, h]

/-- What one invocation does with a disk to which a rule applies. -/
theorem CanEditDisk_of_rule (gw : EditGateway) (fuel t : Nat) (id : Int) (d : Disk) (v : Bool)
    (hread : gw.diskRead t id = .ok (some d)) (h : ruleVerdict d = some v) :
    CanEditDisk gw (fuel + 1) t id = some ⟨v, none, [EditCall.diskRead id]⟩ := by
  unfold ruleVerdict isBlank at h
  rw [← hasAllowTag_eq_carriesAllowTag] at h
  by_cases hb : d.BundleInfo.isSome = true
  · simp [hb] at h
    simp [CanEditDisk, hread, hb, h]
  · by_cases hbl : (d.SourceArchive.isNone && d.SourceDisk.isNone) = true
    · simp only [hb, hbl, if_true, Bool.false_eq_true, if_false, Option.some.injEq] at h
      simp [CanEditDisk, hread, hb, hbl, ← h]
    · by_cases ht : hasAllowTag d = true
      · simp only [hb, hbl, ht, if_true, Bool.false_eq_true, if_false, Option.some.injEq] at h
        simp [CanEditDisk, hread, hb, hbl, ht, ← h]
      · simp [hb, hbl, ht] at h

/-- The tests a disk passes when no rule applies to it. -/
theorem tests_of_no_rule (d : Disk) (h : ruleVerdict d = none) :
    d.BundleInfo.isSome = false ∧ (d.SourceArchive.isNone && d.SourceDisk.isNone) = false ∧
      hasAllowTag d = false := by
  unfold ruleVerdict isBlank at h
  rw [← hasAllowTag_eq_carriesAllowTag] at h
  by_cases hb : d.BundleInfo.isSome = true
  · simp [hb] at h
  · by_cases hbl : (d.SourceArchive.isNone && d.SourceDisk.isNone) = true
    · simp [hb, hbl] at h
    · by_cases ht : hasAllowTag d = true
      · simp [hb, hbl, ht] at h
      · exact ⟨Bool.eq_false_iff.mpr hb, Bool.eq_false_iff.mpr hbl, Bool.eq_false_iff.mpr ht⟩

/-- C3, counterexample: disk 1 is followed by one active ancestor, disk 2,
reached through its source-disk reference; disk 2 has a discontinued source
disk; no bundle, blank or tag rule applies to either.  The claim gives
`false` after at most two fetches, but the source archive of disk 2 is not
discontinued, so `CanEditDisk` asks the archive side after the two reads and
returns its answer `true`. -/
theorem CanEditDisk_chain_end_active_archive :
    ((archiveEndGateway "available").diskRead 0 1 = .ok (some (copyOf 1 2)) ∧
      followsSourceDisk (copyOf 1 2) 2 = true ∧
      (archiveEndGateway "available").diskRead 1 2 = .ok (some (halfDeadDisk "available")) ∧
      preferredRef (halfDeadDisk "available") = some ⟨3, "discontinued"⟩) ∧
    (ruleVerdict (copyOf 1 2) = none ∧ ruleVerdict (halfDeadDisk "available") = none) ∧
    CanEditDisk (archiveEndGateway "available") 2 0 1
      = some ⟨true, none,
          [EditCall.diskRead 1, EditCall.diskRead 2, EditCall.archiveCanEditDisk 7]⟩ := by
  refine ⟨⟨rfl, by decide, rfl, rfl⟩, ⟨by decide, by decide⟩, by decide⟩

/-- C3, amended: when the starting disk heads a chain of `N` further disks,
each reached from the one before through an active source-disk reference,
and the last disk is bundled, blank-sourced, allow-tagged or has only
discontinued source references, then `CanEditDisk` returns with any fuel of
at least `N + 1`, without error; its calls are the reads of the disks of the
chain in order, up to the first disk to which the bundle, blank or tag rule
applies, so at most `N + 1` reads, all successful; and its verdict is that of
this first disk, `false` when the chain ends at discontinued sources without
one. -/
theorem CanEditDisk_chain (gw : EditGateway) (rest : List (Int × Disk)) :
    ∀ (t : Nat) (id : Int) (d : Disk) (fuel : Nat),
      chainAt gw t ((id, d) :: rest) → rest.length + 1 ≤ fuel →
      CanEditDisk gw fuel t id
          = some ⟨chainVerdict ((id, d) :: rest), none, chainReads ((id, d) :: rest)⟩ ∧
        (chainReads ((id, d) :: rest)).length ≤ rest.length + 1 := by
  induction rest with
  | nil =>
    intro t id d fuel h hfuel
    refine ⟨?_, chainReads_length_le _⟩
    obtain ⟨f, rfl⟩ : ∃ f, fuel = f + 1 := ⟨fuel - 1, by omega⟩
    obtain ⟨hread, hend⟩ := h
    cases hrule : ruleVerdict d with
    | some v =>
      obtain ⟨hv, hr⟩ := chain_cons_of_rule id d [] v hrule
      rw [hv, hr]
      exact CanEditDisk_of_rule gw f t id d v hread hrule
    | none =>
      obtain ⟨hv, hr⟩ := chain_cons_of_no_rule id d [] hrule
      obtain ⟨hb, hbl, ht⟩ := tests_of_no_rule d hrule
      have hbl2 : isBlank d = false := hbl
      have htag : carriesAllowTag d = false := by
        rw [← hasAllowTag_eq_carriesAllowTag]
        exact ht
      have hdead : (deadRef d.SourceDisk && deadRef d.SourceArchive) = true := by
        simpa [endsChain, hb, hbl2, htag] using hend
      have h1 : activeRef d.SourceDisk = none :=
        activeRef_of_deadRef _ (by simp at hdead; exact hdead.1)
      have h2 : activeRef d.SourceArchive = none :=
        activeRef_of_deadRef _ (by simp at hdead; exact hdead.2)
      rw [hv, hr]
      simp [CanEditDisk, hread, hb, hbl, ht, h1, h2, chainVerdict, chainReads]
  | cons p rest ih =>
    intro t id d fuel h hfuel
    refine ⟨?_, chainReads_length_le _⟩
    obtain ⟨id', d'⟩ := p
    obtain ⟨f, rfl⟩ : ∃ f, fuel = f + 1 := ⟨fuel - 1, by simp at hfuel; omega⟩
    obtain ⟨hread, hfol, hrest⟩ := h
    cases hrule : ruleVerdict d with
    | some v =>
      obtain ⟨hv, hr⟩ := chain_cons_of_rule id d ((id', d') :: rest) v hrule
      rw [hv, hr]
      exact CanEditDisk_of_rule gw f t id d v hread hrule
    | none =>
      obtain ⟨hv, hr⟩ := chain_cons_of_no_rule id d ((id', d') :: rest) hrule
      obtain ⟨hb, hbl, ht⟩ := tests_of_no_rule d hrule
      obtain ⟨s, hs, hsid⟩ : ∃ s, activeRef d.SourceDisk = some s ∧ s.ID = id' := by
        unfold followsSourceDisk at hfol
        cases hs : d.SourceDisk with
        | none => simp [hs] at hfol
        | some s =>
          simp [hs] at hfol
          exact ⟨s, by simp [activeRef, hfol.1], hfol.2⟩
      obtain ⟨hrec, _⟩ := ih (t + 1) id' d' f hrest (by simp at hfuel; omega)
      rw [hv, hr]
      simp [CanEditDisk, hread, hb, hbl, ht, hs, hsid, hrec]

theorem CanEditDisk_chain_witness :
    (CanEditDisk chainGateway 3 0 1
        = some ⟨true, none, [EditCall.diskRead 1, EditCall.diskRead 2, EditCall.diskRead 3]⟩ ∧
      [EditCall.diskRead 1, EditCall.diskRead 2, EditCall.diskRead 3].length ≤ 2 + 1) ∧
    (CanEditDisk (archiveEndGateway "discontinued") 2 0 1
        = some ⟨false, none, [EditCall.diskRead 1, EditCall.diskRead 2]⟩ ∧
      [EditCall.diskRead 1, EditCall.diskRead 2].length ≤ 1 + 1) :=
  ⟨CanEditDisk_chain chainGateway
      [(2, copyOf 2 3),
        (3, ⟨3, none, none, some ⟨9, "available"⟩, ["os-linux"], ResourceState.Available⟩)]
      0 1 (copyOf 1 2) 3 ⟨rfl, by decide, rfl, by decide, rfl, by decide⟩ (by decide),
    CanEditDisk_chain (archiveEndGateway "discontinued") [(2, halfDeadDisk "discontinued")]
      0 1 (copyOf 1 2) 2 ⟨rfl, by decide, rfl, by decide⟩ (by decide)⟩

/-! ## Properties of SleepWhileCopying -/

theorem State_cases (read : Nat → Except GwError Disk) (k : Nat) :
    State read k = (false, none) ∨ State read k = (true, none) ∨
      ∃ e, read k = .error e ∧ State read k = (false, some (Error.gateway e)) := by
  unfold State
  cases h : read k with
  | error e => exact Or.inr (Or.inr ⟨e, rfl, rfl⟩)
  | ok d =>
    cases hd : d.IsAvailable with
    | false => exact Or.inl (by simp [hd])
    | true => exact Or.inr (Or.inl (by simp [hd]))

theorem sleepLoop_pending (read : Nat → Except GwError Disk) (timeout : Int)
    (fuel k : Nat) (cur : Int) (h : State read k = (false, none)) :
    sleepLoop read timeout (fuel + 1) k cur =
      if timeout > 0 ∧ int64Wrap (cur + interval) > timeout then
        some ⟨some Error.timeoutWait, k + 1⟩
      else sleepLoop read timeout fuel (k + 1) (int64Wrap (cur + interval)) := by
  rw [sleepLoop]
  simp only [h]

theorem sleepLoop_available (read : Nat → Except GwError Disk) (timeout : Int)
    (fuel k : Nat) (cur : Int) (h : State read k = (true, none)) :
    sleepLoop read timeout (fuel + 1) k cur = some ⟨none, k⟩ := by
  rw [sleepLoop]
  simp only [h]

theorem sleepLoop_error (read : Nat → Except GwError Disk) (timeout : Int)
    (fuel k : Nat) (cur : Int) (e : GwError) (h : read k = .error e) :
    sleepLoop read timeout (fuel + 1) k cur = some ⟨some (Error.gateway e), k⟩ := by
  have hS : State read k = (false, some (Error.gateway e)) := by simp [State, h]
  rw [sleepLoop]
  simp only [hS]

/-- Every return of the loop without a deadline: no timeout error, all polls
before the last one pending, and the last poll available or failing. -/
theorem sleepLoop_zero_sound (read : Nat → Except GwError Disk) :
    ∀ (fuel k : Nat) (cur : Int) (r : WaitResult),
      sleepLoop read 0 fuel k cur = some r →
      k ≤ r.sleeps ∧ r.err ≠ some Error.timeoutWait ∧
      (∀ j, k ≤ j → j < r.sleeps → State read j = (false, none)) ∧
      ((r.err = none ∧ State read r.sleeps = (true, none)) ∨
        (∃ e, r.err = some (Error.gateway e) ∧ read r.sleeps = .error e)) := by
  intro fuel
  induction fuel with
  | zero => intro k cur r h; simp [sleepLoop] at h
  | succ fuel ih =>
    intro k cur r h
    rcases State_cases read k with hp | ha | ⟨e, he, _⟩
    · rw [sleepLoop_pending read 0 fuel k cur hp] at h
      simp only [gt_iff_lt, lt_self_iff_false, false_and, if_false] at h
      obtain ⟨h1, h2, h3, h4⟩ := ih (k + 1) _ r h
      refine ⟨by omega, h2, ?_, h4⟩
      intro j hj1 hj2
      by_cases hjk : j = k
      · rw [hjk]; exact hp
      · exact h3 j (by omega) hj2
    · rw [sleepLoop_available read 0 fuel k cur ha] at h
      cases h
      exact ⟨le_refl _, by simp, fun j h1 h2 => absurd h2 (by simp; omega), Or.inl ⟨rfl, ha⟩⟩
    · rw [sleepLoop_error read 0 fuel k cur e he] at h
      cases h
      exact ⟨le_refl _, by simp, fun j h1 h2 => absurd h2 (by simp; omega),
        Or.inr ⟨e, rfl, he⟩⟩

/-- While the polls are pending and there is no deadline, the loop goes on. -/
theorem sleepLoop_zero_running (read : Nat → Except GwError Disk) :
    ∀ (fuel k : Nat) (cur : Int),
      (∀ j, k ≤ j → j < k + fuel → State read j = (false, none)) →
      sleepLoop read 0 fuel k cur = none := by
  intro fuel
  induction fuel with
  | zero => intro k cur _; simp [sleepLoop]
  | succ fuel ih =>
    intro k cur h
    rw [sleepLoop_pending read 0 fuel k cur (h k (le_refl _) (by omega))]
    simp only [gt_iff_lt, lt_self_iff_false, false_and, if_false]
    exact ih (k + 1) _ (fun j h1 h2 => h j (by omega) (by omega))

/-- Without a deadline, `m` pending polls are passed over in `m` iterations. -/
theorem sleepLoop_zero_skip (read : Nat → Except GwError Disk) :
    ∀ (m fuel k : Nat) (cur : Int),
      (∀ j, k ≤ j → j < k + m → State read j = (false, none)) →
      ∃ cur2, sleepLoop read 0 (fuel + m) k cur = sleepLoop read 0 fuel (k + m) cur2 := by
  intro m
  induction m with
  | zero => intro fuel k cur _; exact ⟨cur, rfl⟩
  | succ m ih =>
    intro fuel k cur h
    have hstep : fuel + (m + 1) = (fuel + m) + 1 := by omega
    rw [hstep, sleepLoop_pending read 0 (fuel + m) k cur (h k (le_refl _) (by omega))]
    simp only [gt_iff_lt, lt_self_iff_false, false_and, if_false]
    obtain ⟨c, hc⟩ := ih fuel (k + 1) (int64Wrap (cur + interval))
      (fun j h1 h2 => h j (by omega) (by omega))
    refine ⟨c, ?_⟩
    rw [hc]
    have : k + 1 + m = k + (m + 1) := by omega
    rw [this]

/-- C4: with `timeout = 0`, whatever the polls answer, `SleepWhileCopying`
never returns the timeout error.  When it returns, every earlier poll was
pending and it returns `nil` at a poll that reports the disk available or the
read error of a failing poll; it does so at the first such poll as soon as
the fuel reaches it, and it is still polling as long as all polls so far were
pending. -/
theorem SleepWhileCopying_zero_timeout (read : Nat → Except GwError Disk) :
    (∀ fuel r, SleepWhileCopying read 0 fuel = some r →
      r.err ≠ some Error.timeoutWait ∧
      (∀ j, j < r.sleeps → State read j = (false, none)) ∧
      ((r.err = none ∧ State read r.sleeps = (true, none)) ∨
        (∃ e, r.err = some (Error.gateway e) ∧ read r.sleeps = .error e))) ∧
    (∀ k, (∀ j, j < k → State read j = (false, none)) →
      (∀ fuel, fuel ≤ k → SleepWhileCopying read 0 fuel = none) ∧
      (State read k = (true, none) →
        ∀ fuel, k < fuel → SleepWhileCopying read 0 fuel = some ⟨none, k⟩) ∧
      (∀ e, read k = .error e →
        ∀ fuel, k < fuel →
          SleepWhileCopying read 0 fuel = some ⟨some (Error.gateway e), k⟩)) := by
  constructor
  · intro fuel r h
    obtain ⟨_, h2, h3, h4⟩ := sleepLoop_zero_sound read fuel 0 0 r h
    exact ⟨h2, fun j hj => h3 j (Nat.zero_le _) hj, h4⟩
  · intro k hk
    refine ⟨?_, ?_, ?_⟩
    · intro fuel hf
      exact sleepLoop_zero_running read fuel 0 0 (fun j _ h2 => hk j (by omega))
    · intro ha fuel hf
      obtain ⟨f, rfl⟩ : ∃ f, fuel = (f + 1) + k := ⟨fuel - k - 1, by omega⟩
      obtain ⟨c, hc⟩ := sleepLoop_zero_skip read k (f + 1) 0 0 (fun j _ h2 => hk j (by omega))
      unfold SleepWhileCopying
      rw [hc, Nat.zero_add]
      exact sleepLoop_available read 0 f k c ha
    · intro e he fuel hf
      obtain ⟨f, rfl⟩ : ∃ f, fuel = (f + 1) + k := ⟨fuel - k - 1, by omega⟩
      obtain ⟨c, hc⟩ := sleepLoop_zero_skip read k (f + 1) 0 0 (fun j _ h2 => hk j (by omega))
      unfold SleepWhileCopying
      rw [hc, Nat.zero_add]
      exact sleepLoop_error read 0 f k c e he

theorem SleepWhileCopying_zero_timeout_witness :
    SleepWhileCopying readyAfterTwo 0 3 = some ⟨none, 2⟩ :=
  ((SleepWhileCopying_zero_timeout readyAfterTwo).2 2 (by decide)).2.1 (by decide) 3
    (by decide)

theorem interval_nonneg : 0 ≤ interval := by
  unfold interval
  norm_num

theorem int64Wrap_step (k : Nat) :
    int64Wrap (int64Wrap ((k : Int) * interval) + interval)
      = int64Wrap (((k + 1 : Nat) : Int) * interval) := by
  unfold int64Wrap interval
  push_cast
  omega

theorem int64Wrap_le_of_nonneg (x : Int) (h : 0 ≤ x) : int64Wrap x ≤ x := by
  unfold int64Wrap
  omega

theorem int64Wrap_le_max (x : Int) : int64Wrap x ≤ 9223372036854775807 := by
  unfold int64Wrap
  omega

/-- The accumulator reaches its largest value, `2^63 - 512`, after
6766337668538551 sleeps. -/
theorem int64Wrap_peak :
    int64Wrap (((6766337668538551 : Nat) : Int) * interval) = 9223372036854775296 := by
  unfold int64Wrap interval
  norm_num

/-- A timeout error of the loop is returned right after a sleep that took the
accumulator above a positive `timeout`. -/
theorem sleepLoop_timeout_sound (read : Nat → Except GwError Disk) (timeout : Int) :
    ∀ (fuel k : Nat) (r : WaitResult),
      sleepLoop read timeout fuel k (int64Wrap ((k : Int) * interval)) = some r →
      r.err = some Error.timeoutWait →
      0 < timeout ∧ timeout < int64Wrap ((r.sleeps : Int) * interval) := by
  intro fuel
  induction fuel with
  | zero => intro k r h; simp [sleepLoop] at h
  | succ fuel ih =>
    intro k r h herr
    rcases State_cases read k with hp | ha | ⟨e, he, _⟩
    · rw [sleepLoop_pending read timeout fuel k _ hp, int64Wrap_step] at h
      by_cases hc : timeout > 0 ∧ int64Wrap (((k + 1 : Nat) : Int) * interval) > timeout
      · rw [if_pos hc] at h
        cases h
        exact ⟨hc.1, hc.2⟩
      · rw [if_neg hc] at h
        exact ih (k + 1) r h herr
    · rw [sleepLoop_available read timeout fuel k _ ha] at h
      cases h
      simp at herr
    · rw [sleepLoop_error read timeout fuel k _ e he] at h
      cases h
      simp at herr

/-- With pending polls only, the loop returns the timeout error at the first
sleep count whose accumulator is above the positive `timeout`. -/
theorem sleepLoop_timeout_reach (read : Nat → Except GwError Disk) (timeout : Int)
    (hpos : 0 < timeout) (hpend : ∀ k, State read k = (false, none)) (n : Nat)
    (hn : timeout < int64Wrap ((n : Int) * interval))
    (hmin : ∀ j, 0 < j → j < n → ¬ timeout < int64Wrap ((j : Int) * interval)) :
    ∀ (m k fuel : Nat), k + m + 1 = n → m < fuel →
      sleepLoop read timeout fuel k (int64Wrap ((k : Int) * interval))
        = some ⟨some Error.timeoutWait, n⟩ := by
  intro m
  induction m with
  | zero =>
    intro k fuel hk hf
    obtain ⟨f, rfl⟩ : ∃ f, fuel = f + 1 := ⟨fuel - 1, by omega⟩
    rw [sleepLoop_pending read timeout f k _ (hpend k), int64Wrap_step]
    have hk1 : k + 1 = n := by omega
    rw [hk1, if_pos ⟨hpos, hn⟩]
  | succ m ih =>
    intro k fuel hk hf
    obtain ⟨f, rfl⟩ : ∃ f, fuel = f + 1 := ⟨fuel - 1, by omega⟩
    rw [sleepLoop_pending read timeout f k _ (hpend k), int64Wrap_step]
    have hnot : ¬ (timeout > 0 ∧ int64Wrap (((k + 1 : Nat) : Int) * interval) > timeout) :=
      fun h => hmin (k + 1) (by omega) (by omega) h.2
    rw [if_neg hnot]
    exact ih (k + 1) f (by omega) (by omega)

/-- With pending polls only, the loop is still running while the accumulator
has not been above the positive `timeout`. -/
theorem sleepLoop_timeout_running (read : Nat → Except GwError Disk) (timeout : Int)
    (hpend : ∀ k, State read k = (false, none)) :
    ∀ (fuel k : Nat),
      (∀ j, k < j → j ≤ k + fuel →
        ¬ (timeout > 0 ∧ timeout < int64Wrap ((j : Int) * interval))) →
      sleepLoop read timeout fuel k (int64Wrap ((k : Int) * interval)) = none := by
  intro fuel
  induction fuel with
  | zero => intro k _; simp [sleepLoop]
  | succ fuel ih =>
    intro k h
    rw [sleepLoop_pending read timeout fuel k _ (hpend k), int64Wrap_step]
    have hnot : ¬ (timeout > 0 ∧ int64Wrap (((k + 1 : Nat) : Int) * interval) > timeout) :=
      h (k + 1) (by omega) (by omega)
    rw [if_neg hnot]
    exact ih (k + 1) (fun j h1 h2 => h j (by omega) (by omega))

theorem SleepWhileCopying_eq_loop (read : Nat → Except GwError Disk) (timeout : Int)
    (fuel : Nat) :
    SleepWhileCopying read timeout fuel
      = sleepLoop read timeout fuel 0 (int64Wrap (((0 : Nat) : Int) * interval)) := by
  unfold SleepWhileCopying
  simp [int64Wrap]

/-- C5, counterexample: all polls succeed and never report the disk
available, the timeout is nonzero, and `SleepWhileCopying` never returns (so
never with the timeout error), whatever the fuel: once for the negative
timeout of -1 ns, once for the largest `int64` timeout, which the accumulator
cannot exceed. -/
theorem SleepWhileCopying_nonzero_timeout_never_fires :
    ((∀ k, State pendingReads k = (false, none)) ∧ (-1 : Int) ≠ 0 ∧
      ∀ fuel, SleepWhileCopying pendingReads (-1) fuel = none) ∧
    ((9223372036854775807 : Int) ≠ 0 ∧
      ∀ fuel, SleepWhileCopying pendingReads 9223372036854775807 fuel = none) := by
  have hp : ∀ k, State pendingReads k = (false, none) := fun _ => rfl
  refine ⟨⟨hp, by decide, ?_⟩, by decide, ?_⟩
  · intro fuel
    rw [SleepWhileCopying_eq_loop]
    exact sleepLoop_timeout_running pendingReads (-1) hp fuel 0
      (fun j _ _ h => absurd h.1 (by decide))
  · intro fuel
    rw [SleepWhileCopying_eq_loop]
    refine sleepLoop_timeout_running pendingReads _ hp fuel 0 (fun j _ _ h => ?_)
    have := int64Wrap_le_max ((j : Int) * interval)
    omega

/-- C5, amended: `SleepWhileCopying` returns the timeout error only for a
positive `timeout` and only when the accumulated time, 5 s times the number
of completed sleeps, is above `timeout`.  For every positive `timeout` below
`2^63 - 512` ns and polls that all succeed without ever reporting the disk
available, it does return the timeout error: there is a sleep count `n` with
accumulated time above `timeout` at which it returns it for every fuel of at
least `n`, and it is still polling with less fuel. -/
theorem SleepWhileCopying_timeout (read : Nat → Except GwError Disk) (timeout : Int) :
    (∀ fuel r, SleepWhileCopying read timeout fuel = some r →
      r.err = some Error.timeoutWait →
      0 < timeout ∧ timeout < (r.sleeps : Int) * interval) ∧
    (0 < timeout → timeout < 9223372036854775296 →
      (∀ k, State read k = (false, none)) →
      ∃ n : Nat, timeout < (n : Int) * interval ∧
        (∀ fuel, n ≤ fuel →
          SleepWhileCopying read timeout fuel = some ⟨some Error.timeoutWait, n⟩) ∧
        (∀ fuel, fuel < n → SleepWhileCopying read timeout fuel = none)) := by
  constructor
  · intro fuel r h herr
    rw [SleepWhileCopying_eq_loop] at h
    obtain ⟨h1, h2⟩ := sleepLoop_timeout_sound read timeout fuel 0 r h herr
    refine ⟨h1, lt_of_lt_of_le h2 (int64Wrap_le_of_nonneg _ ?_)⟩
    exact Int.mul_nonneg (Int.ofNat_nonneg _) interval_nonneg
  · intro hpos hlt hpend
    have hex : ∃ n : Nat, timeout < int64Wrap ((n : Int) * interval) :=
      ⟨6766337668538551, by rw [int64Wrap_peak]; exact hlt⟩
    classical
    have hn := Nat.find_spec hex
    have hmin : ∀ j, 0 < j → j < Nat.find hex →
        ¬ timeout < int64Wrap ((j : Int) * interval) :=
      fun j _ hj => Nat.find_min hex hj
    have hn0 : 0 < Nat.find hex := by
      rcases Nat.eq_zero_or_pos (Nat.find hex) with h0 | h0
      · rw [h0] at hn
        simp [int64Wrap] at hn
        omega
      · exact h0
    refine ⟨Nat.find hex, ?_, ?_, ?_⟩
    · refine lt_of_lt_of_le hn (int64Wrap_le_of_nonneg _ ?_)
      exact Int.mul_nonneg (Int.ofNat_nonneg _) interval_nonneg
    · intro fuel hf
      rw [SleepWhileCopying_eq_loop]
      exact sleepLoop_timeout_reach read timeout hpos hpend (Nat.find hex) hn hmin
        (Nat.find hex - 1) 0 fuel (by omega) (by omega)
    · intro fuel hf
      rw [SleepWhileCopying_eq_loop]
      exact sleepLoop_timeout_running read timeout hpend fuel 0
        (fun j h1 h2 h => hmin j h1 (by omega) h.2)

theorem SleepWhileCopying_timeout_witness :
    ∃ n : Nat, (7000000000 : Int) < (n : Int) * interval ∧
      (∀ fuel, n ≤ fuel →
        SleepWhileCopying pendingReads 7000000000 fuel = some ⟨some Error.timeoutWait, n⟩) ∧
      (∀ fuel, fuel < n → SleepWhileCopying pendingReads 7000000000 fuel = none) :=
  (SleepWhileCopying_timeout pendingReads 7000000000).2 (by decide) (by decide)
    (fun _ => rfl)

/-! ## Properties of AsyncSleepWhileCopying -/

theorem trySend_eq_some (recv : Nat → Bool) (sent : List Event) (ev : Event)
    (s : List Event) (h : trySend recv sent ev = some s) : s = sent ++ [ev] := by
  unfold trySend at h
  split at h
  · exact (Option.some.inj h).symm
  · cases h

/-- The shape of every trace of the loop entered with progress events only:
either progress events followed by one terminal event, the task having
returned, or progress events only, the task not having returned. -/
theorem asyncLoop_shape (id : Int) (fired : Nat → Fired) (read : Nat → Except GwError Disk)
    (recv : Nat → Bool) :
    ∀ (fuel i : Nat) (sent : List Event), (∀ e ∈ sent, Event.isTerminal e = false) →
      (∃ pre ev, (asyncLoop id fired read recv fuel i sent).events = pre ++ [ev] ∧
        (∀ e ∈ pre, Event.isTerminal e = false) ∧ Event.isTerminal ev = true ∧
        (asyncLoop id fired read recv fuel i sent).status = TaskStatus.returned) ∨
      ((∀ e ∈ (asyncLoop id fired read recv fuel i sent).events, Event.isTerminal e = false) ∧
        (asyncLoop id fired read recv fuel i sent).status ≠ TaskStatus.returned) := by
  intro fuel
  induction fuel with
  | zero =>
    intro i sent hs
    right
    simp only [asyncLoop]
    exact ⟨hs, by simp⟩
  | succ fuel ih =>
    intro i sent hs
    rw [asyncLoop]
    cases hf : fired i with
    | deadline =>
      simp only
      cases ht : trySend recv sent (Event.error (Error.timeoutAsync id)) with
      | none => right; exact ⟨hs, by simp⟩
      | some s =>
        left
        exact ⟨sent, _, trySend_eq_some recv sent _ s ht, hs, rfl, rfl⟩
    | tick =>
      simp only
      cases hr : read i with
      | error e =>
        simp only
        cases ht : trySend recv sent (Event.error (Error.gateway e)) with
        | none => right; exact ⟨hs, by simp⟩
        | some s =>
          left
          exact ⟨sent, _, trySend_eq_some recv sent _ s ht, hs, rfl, rfl⟩
      | ok disk =>
        simp only
        cases ht : trySend recv sent (Event.progress disk) with
        | none => right; exact ⟨hs, by simp⟩
        | some s1 =>
          have hs1 : s1 = sent ++ [Event.progress disk] := trySend_eq_some recv sent _ s1 ht
          have hall : ∀ e ∈ s1, Event.isTerminal e = false := by
            intro e he
            rw [hs1, List.mem_append] at he
            rcases he with he | he
            · exact hs e he
            · rw [List.mem_singleton.mp he]; rfl
          simp only
          by_cases hav : disk.IsAvailable = true
          · rw [if_pos hav]
            cases ht2 : trySend recv s1 (Event.complete disk) with
            | none => right; exact ⟨hall, by simp⟩
            | some s2 =>
              left
              exact ⟨s1, _, trySend_eq_some recv s1 _ s2 ht2, hall, rfl, rfl⟩
          · rw [if_neg hav]
            by_cases hfa : disk.IsFailed = true
            · rw [if_pos hfa]
              cases ht2 : trySend recv s1 (Event.error (Error.failedCreate disk)) with
              | none => right; exact ⟨hall, by simp⟩
              | some s2 =>
                left
                exact ⟨s1, _, trySend_eq_some recv s1 _ s2 ht2, hall, rfl, rfl⟩
            · rw [if_neg hfa]
              exact ih (i + 1) s1 hall

theorem filter_terminal_eq_nil (l : List Event) (h : ∀ e ∈ l, Event.isTerminal e = false) :
    l.filter Event.isTerminal = [] := by
  rw [List.filter_eq_nil_iff]
  intro e he
  simp [h e he]

theorem terminal_is_last (pre : List Event) (ev : Event)
    (hpre : ∀ e ∈ pre, Event.isTerminal e = false)
    (pre2 : List Event) (ev2 : Event) (post : List Event)
    (heq : pre ++ [ev] = pre2 ++ ev2 :: post) (ht : Event.isTerminal ev2 = true) :
    post = [] := by
  rcases List.eq_nil_or_concat post with hnil | ⟨post2, last, hpost⟩
  · exact hnil
  · exfalso
    rw [hpost, List.concat_eq_append, ← List.cons_append, ← List.append_assoc] at heq
    have hinit := List.append_inj_left' heq rfl
    have hmem : ev2 ∈ pre := by
      rw [hinit]
      simp
    rw [hpre ev2 hmem] at ht
    cases ht

/-- C6: whatever the timers, the reads and the receivers do, and however long
the task runs, its trace holds at most one event of the completion and error
channels; when it holds one, nothing follows it (no progress event, no second
terminal event) and the task has returned; and the task returns only right
after such an event. -/
theorem asyncTask_single_terminal (id : Int) (fired : Nat → Fired)
    (read : Nat → Except GwError Disk) (recv : Nat → Bool) (fuel : Nat) :
    ((asyncTask id fired read recv fuel).events.filter Event.isTerminal).length ≤ 1 ∧
    (∀ pre ev post, (asyncTask id fired read recv fuel).events = pre ++ ev :: post →
      Event.isTerminal ev = true →
      post = [] ∧ (asyncTask id fired read recv fuel).status = TaskStatus.returned) ∧
    ((asyncTask id fired read recv fuel).status = TaskStatus.returned →
      ∃ pre ev, (asyncTask id fired read recv fuel).events = pre ++ [ev] ∧
        Event.isTerminal ev = true) := by
  unfold asyncTask
  rcases asyncLoop_shape id fired read recv fuel 0 [] (by simp) with
    ⟨pre, ev, hev, hpre, hterm, hst⟩ | ⟨hall, hst⟩
  · refine ⟨?_, ?_, fun _ => ⟨pre, ev, hev, hterm⟩⟩
    · rw [hev, List.filter_append, filter_terminal_eq_nil pre hpre]
      simp [hterm]
    · intro pre2 ev2 post heq ht
      rw [hev] at heq
      exact ⟨terminal_is_last pre ev hpre pre2 ev2 post heq ht, hst⟩
  · refine ⟨?_, ?_, fun h => absurd h hst⟩
    · rw [filter_terminal_eq_nil _ hall]
      simp
    · intro pre2 ev2 post heq ht
      exfalso
      have hmem : ev2 ∈ (asyncLoop id fired read recv fuel 0 []).events := by
        rw [heq]
        simp
      rw [hall ev2 hmem] at ht
      cases ht

theorem asyncTask_single_terminal_witness :
    ∃ pre ev, (asyncTask 1 (fun _ => Fired.tick) readyAfterTwo allReceived 5).events
        = pre ++ [ev] ∧ Event.isTerminal ev = true :=
  (asyncTask_single_terminal 1 (fun _ => Fired.tick) readyAfterTwo allReceived 5).2.2
    (by decide)

/-- When the 5-second timer wins every race, the reads find the disk neither
available nor failed and the receivers take every event, the loop only adds
one progress event per iteration. -/
theorem asyncLoop_all_ticks (id : Int) (fired : Nat → Fired) (hfired : ∀ i, fired i = Fired.tick)
    (read : Nat → Except GwError Disk) (d : Disk)
    (hread : ∀ i, read i = .ok d) (hav : d.IsAvailable = false) (hfa : d.IsFailed = false) :
    ∀ (fuel i : Nat) (sent : List Event),
      asyncLoop id fired read allReceived fuel i sent
        = ⟨sent ++ List.replicate fuel (Event.progress d), TaskStatus.running⟩ := by
  intro fuel
  induction fuel with
  | zero => intro i sent; simp [asyncLoop]
  | succ fuel ih =>
    intro i sent
    rw [asyncLoop]
    simp only [hfired, hread, trySend, allReceived, if_true, hav, hfa, Bool.false_eq_true,
      if_false]
    rw [ih (i + 1), List.replicate_succ, List.append_assoc]
    rfl

/-- A timeout above the 5-second interval loses every race. -/
theorem selectFired_long_timeout (timeout : Int) (htimeout : interval < timeout) (tie : Fired) :
    selectFired timeout tie = Fired.tick := by
  simp [selectFired, htimeout]

/-- C7, the code at the failing input: with a timeout of 10 s and a disk that
stays in progress, the task has made `n` polls after `n` iterations, for
every `n`, and is still running; it has emitted `n` progress events and no
timeout error. -/
theorem AsyncSleepWhileCopying_ten_seconds_never_times_out (n : Nat) :
    AsyncSleepWhileCopying 1 10000000000 (fun _ => Fired.deadline) pendingReads allReceived n
      = ⟨List.replicate n (Event.progress pendingDisk), TaskStatus.running⟩ := by
  unfold AsyncSleepWhileCopying asyncTask
  rw [asyncLoop_all_ticks 1 _
    (fun i => selectFired_long_timeout 10000000000 (by decide) Fired.deadline) pendingReads
    pendingDisk (fun _ => rfl) (by decide) (by decide) n 0 []]
  simp

/-! ## Properties of connectPacketFilter -/

theorem ne_empty_of_matchDigits (token : String) (h : matchDigits token = true) :
    token ≠ "" := by
  intro he
  subst he
  simp [matchDigits] at h

theorem connectStep_calls (c : PFClient) (nic : Interface) (id : Int) (calls : List PFCall)
    (nm : String) (lim : Nat) (h : PFCall.find nm lim ∈ (connectStep c nic id calls).calls) :
    PFCall.find nm lim ∈ calls := by
  unfold connectStep at h
  split at h
  · exact h
  · simpa using h

/-- C8, counterexample: the token `42` is made of digits only, the direct
read succeeds with a filter whose id is 0, and `connectPacketFilter` goes on
to the name search and attaches filter 77, the id found by name. -/
theorem connectPacketFilter_digits_falls_back :
    matchDigits "42" = true ∧
    connectPacketFilter zeroIdClient ⟨5⟩ "42"
      = ⟨Ret.ok, [PFCall.read 42, PFCall.find "42" 1, PFCall.connect 5 77]⟩ := by
  constructor <;> decide

/-- C8, amended: for a token made only of decimal digits, the first call is
the direct read by id.  A failing read is returned as the error and nothing
else is called.  When the read yields a filter with a nonzero id, no name
search is made and the attach is called once, with the interface id and that
id, its error being returned.  A name search is made only when the read
yields a filter whose id is 0. -/
theorem connectPacketFilter_digits (c : PFClient) (nic : Interface) (token : String)
    (hd : matchDigits token = true) :
    (∀ e, c.Read (c.ToSakuraID token).1 = .error e →
      connectPacketFilter c nic token
        = ⟨Ret.err (Error.gateway e), [PFCall.read (c.ToSakuraID token).1]⟩) ∧
    (∀ p, c.Read (c.ToSakuraID token).1 = .ok (some p) → p.ID ≠ 0 →
      connectPacketFilter c nic token
        = ⟨attachRet (c.ConnectToPacketFilter nic.ID p.ID),
            [PFCall.read (c.ToSakuraID token).1, PFCall.connect nic.ID p.ID]⟩) ∧
    (∀ nm lim, PFCall.find nm lim ∈ (connectPacketFilter c nic token).calls →
      ∃ p, c.Read (c.ToSakuraID token).1 = .ok (some p) ∧ p.ID = 0) := by
  have hne := ne_empty_of_matchDigits token hd
  refine ⟨?_, ?_, ?_⟩
  · intro e he
    simp [connectPacketFilter, hne, hd, he]
  · intro p hp hid
    simp [connectPacketFilter, hne, hd, hp, searchStep, connectStep, hid]
  · intro nm lim hmem
    unfold connectPacketFilter at hmem
    rw [if_neg hne, if_pos hd] at hmem
    cases hr : c.Read (c.ToSakuraID token).1 with
    | error e => simp [hr] at hmem
    | ok o =>
      cases o with
      | none => simp [hr] at hmem
      | some p =>
        refine ⟨p, rfl, ?_⟩
        by_contra hid
        simp only [hr, searchStep, if_neg hid] at hmem
        have := connectStep_calls c nic p.ID _ nm lim hmem
        simp at this

theorem connectPacketFilter_digits_witness :
    connectPacketFilter goodClient ⟨5⟩ "42"
      = ⟨Ret.ok, [PFCall.read 42, PFCall.connect 5 42]⟩ :=
  (connectPacketFilter_digits goodClient ⟨5⟩ "42" (by decide)).2.1 ⟨42⟩ rfl (by decide)

/-- C9, counterexample: the token is not made of digits, the name search
succeeds and reports one match, whose id is 0, and `connectPacketFilter`
returns `nil` without calling the attach. -/
theorem connectPacketFilter_zero_id_match_not_attached :
    ("prod-filter" ≠ "" ∧ matchDigits "prod-filter" = false) ∧
    zeroMatchClient.Find "prod-filter" 1 = .ok (some ⟨1, [⟨0⟩]⟩) ∧
    connectPacketFilter zeroMatchClient ⟨5⟩ "prod-filter"
      = ⟨Ret.ok, [PFCall.find "prod-filter" 1]⟩ := by
  refine ⟨⟨by decide, by decide⟩, rfl, by decide⟩

/-- C9, amended: for a non-empty token that is not made of digits only and
whose name search with limit 1 succeeds: when the reported count is not
positive, `connectPacketFilter` returns the not-found error naming the token
and its only call is the search; when the count is positive and the first
returned match has a nonzero id, it calls the attach once, with the interface
id and that id, after the search, and returns the error of the attach as it
is, `nil` when there is none; when the count is positive and the first
returned match has id 0, it returns `nil` and its only call is the search. -/
theorem connectPacketFilter_name (c : PFClient) (nic : Interface) (token : String)
    (res : SearchPacketFilterResponse)
    (hne : token ≠ "") (hd : matchDigits token = false)
    (hfind : c.Find token 1 = .ok (some res)) :
    (res.Count ≤ 0 →
      connectPacketFilter c nic token
        = ⟨Ret.err (Error.pfNotFound token), [PFCall.find token 1]⟩) ∧
    (∀ p rest, 0 < res.Count → res.PacketFilters = p :: rest → p.ID ≠ 0 →
      connectPacketFilter c nic token
        = ⟨attachRet (c.ConnectToPacketFilter nic.ID p.ID),
            [PFCall.find token 1, PFCall.connect nic.ID p.ID]⟩) ∧
    (∀ p rest, 0 < res.Count → res.PacketFilters = p :: rest → p.ID = 0 →
      connectPacketFilter c nic token = ⟨Ret.ok, [PFCall.find token 1]⟩) := by
  refine ⟨?_, ?_, ?_⟩
  · intro hc
    have hc2 : ¬ res.Count > 0 := by omega
    simp [connectPacketFilter, hne, hd, searchStep, hfind, hc2]
  · intro p rest hc hl hid
    simp [connectPacketFilter, hne, hd, searchStep, hfind, hc, hl, connectStep, hid]
  · intro p rest hc hl hid
    simp [connectPacketFilter, hne, hd, searchStep, hfind, hc, hl, connectStep, hid]

theorem connectPacketFilter_name_witness :
    connectPacketFilter goodClient ⟨5⟩ "prod-filter"
      = ⟨Ret.ok, [PFCall.find "prod-filter" 1, PFCall.connect 5 77]⟩ :=
  (connectPacketFilter_name goodClient ⟨5⟩ "prod-filter" ⟨1, [⟨77⟩]⟩ (by decide) (by decide)
    rfl).2.1 ⟨77⟩ [] (by decide) rfl (by decide)

end Sakura
